import Mathlib

/-!
Verification of the job-status tracker core (job_status_tracker_gsheets.py).

The Python source is shallowly embedded as executable Lean definitions:
Python strings become `String` (worked on as `List Char`), Python `in`
(substring containment) becomes `subB`, `str.lower` becomes a per-character
ASCII lowering (exact on the ASCII strings all patterns and markers consist
of), `re.search` for the Workday tenant pattern becomes an explicit
leftmost-match scanner, the JSON credential cache file becomes a `String`
holding the file content, and JSON values that can inhabit the cache become
the inductive `PyVal` (JSON numbers are split into integers and floats; the
float payload is the exact rational value of the IEEE double, which is all
the comparisons here need).
-/

/-! ## Basic string machinery -/

/-- Substring test on character lists: models the Python `needle in hay`
containment operator. -/
def subB (pat : List Char) : List Char → Bool
  | [] => pat.isEmpty
  | c :: t => pat.isPrefixOf (c :: t) || subB pat t

/-- Python `needle in hay` on strings. -/
def pyIn (needle hay : String) : Bool :=
  subB needle.toList hay.toList

/-- Per-character lowering: models `str.lower`; exact on ASCII characters,
identity elsewhere (the spec and source only compare against ASCII markers
and phrases). -/
def asciiLower (c : Char) : Char :=
  if 'A' ≤ c ∧ c ≤ 'Z' then Char.ofNat (c.toNat + 32) else c

/-- Models `s.lower()` for a Python string. -/
def pyLower (s : String) : String :=
  ⟨s.toList.map asciiLower⟩

/-- Python whitespace characters stripped by `str.strip` (ASCII part). -/
def pyIsSpace (c : Char) : Bool :=
  c = ' ' || c = '\t' || c = '\n' || c = '\x0b' || c = '\x0c' || c = '\x0d'

/-- Models `s.strip()`: removes leading and trailing whitespace. -/
def pyStrip (s : String) : String :=
  ⟨((s.toList.dropWhile pyIsSpace).reverse.dropWhile pyIsSpace).reverse⟩

/-! ## Section 1 of the source: patterns for status detection -/

def CLOSED_PATTERNS : List String := [
  "no longer accepting applications",
  "no longer available",
  "job has expired",
  "position has been filled",
  "position filled",
  "job is closed",
  "this job is closed",
  "no longer posted",
  "no longer active"
]

def LINKEDIN_REJECT_PATTERNS : List String := [
  "no longer being considered for this job",
  "you’re no longer being considered",
  "you are no longer in consideration"
]

def LINKEDIN_REVIEW_PATTERNS : List String := [
  "your application is under review",
  "your application is being reviewed"
]

def LINKEDIN_VIEWED_PATTERNS : List String := [
  "your application has been viewed",
  "your application was viewed"
]

def LINKEDIN_SUBMITTED_PATTERNS : List String := [
  "we received your application",
  "application submitted"
]

def WORKDAY_REJECT_PATTERNS : List String := [
  "no longer in consideration",
  "not selected",
  "no longer being considered"
]

def WORKDAY_INPROCESS_PATTERNS : List String := [
  "in progress",
  "under review",
  "under consideration"
]

/-! ## detect_domain -/

/-- Embeds `detect_domain`: lowers the URL once, then tests the fixed host
markers in source order, returning "generic" when none is contained. -/
def detect_domain (url : String) : String :=
  let u := pyLower url
  if pyIn "linkedin.com" u then "linkedin"
  else if pyIn "myworkdayjobs.com" u then "workday"
  else if pyIn "greenhouse.io" u then "greenhouse"
  else if pyIn "lever.co" u then "lever"
  else if pyIn "taleo.net" u then "taleo"
  else if pyIn "smartrecruiters.com" u then "smartrecruiters"
  else "generic"

/-- Spec-side definition for the domain classifier refinement claim:
the ordered marker list of the specification. -/
def specMarkers : List (String × String) := [
  ("linkedin.com", "linkedin"),
  ("myworkdayjobs.com", "workday"),
  ("greenhouse.io", "greenhouse"),
  ("lever.co", "lever"),
  ("taleo.net", "taleo"),
  ("smartrecruiters.com", "smartrecruiters")
]

/-- Spec-side lookup: first marker (in order) contained case-insensitively
in the URL wins; otherwise generic. -/
def lookupMarker : List (String × String) → String → String
  | [], _ => "generic"
  | (m, dom) :: rest, url =>
    if pyIn m (pyLower url) then dom else lookupMarker rest url

/-- Modelled from the spec: domain classification as described in the
specification, ordered case-insensitive substring containment over the
fixed marker list. -/
def detectDomainSpec (url : String) : String :=
  lookupMarker specMarkers url

/-! ## extract_workday_tenant -/

/-- Attempts the tenant regular expression
`https://([^\.]+)\.wd\d+\.myworkdayjobs\.com` anchored at the head of the
character list, returning the captured group. The regex is deterministic
here: both `[^.]+` and `\d+` are maximal runs because the character that
must follow each of them (a dot) can never occur inside the run. Digits are
modelled as ASCII digits. -/
def matchWdAt (l : List Char) : Option (List Char) :=
  if "https://".toList.isPrefixOf l then
    let r := l.drop 8
    let ten := r.takeWhile (fun c => c ≠ '.')
    let r2 := r.dropWhile (fun c => c ≠ '.')
    if ten.isEmpty then none
    else
      match r2 with
      | '.' :: 'w' :: 'd' :: r4 =>
        let ds := r4.takeWhile Char.isDigit
        let r5 := r4.dropWhile Char.isDigit
        if ds.isEmpty then none
        else if ".myworkdayjobs.com".toList.isPrefixOf r5 then some ten
        else none
      | _ => none
  else none

/-- Models `re.search`: tries the anchored match at each start position
from the left, returning the first success. -/
def searchWd : List Char → Option (List Char)
  | [] => none
  | c :: t =>
    match matchWdAt (c :: t) with
    | some ten => some ten
    | none => searchWd t

/-- Embeds `extract_workday_tenant`: the `re.search` capture, or `None`. -/
def extract_workday_tenant (url : String) : Option String :=
  (searchWd url.toList).map fun l => ⟨l⟩

/-- Modelled from the spec: a URL "of the exact shape
`https://<tenant>.wd<digits>.myworkdayjobs.com...`", i.e. the tenant
pattern anchored at the start of the string. -/
def hasWorkdayShape (url : String) : Bool :=
  (matchWdAt url.toList).isSome

/-- Modelled from the spec: "the literal label between `https://` and the
first `.`" of a URL of the Workday shape. -/
def firstLabel (url : String) : String :=
  ⟨(url.toList.drop 8).takeWhile (fun c => c ≠ '.')⟩

/-! ## classify_status -/

/-- One pattern loop of `classify_status`: `for p in pats: if p in t:
return label`. The loop returns the same label for every pattern, so it is
the `any` of the containment tests. -/
def anyIn (pats : List String) (t : String) : Bool :=
  pats.any fun p => pyIn p t

/-- Embeds `classify_status`: lowers the text once, then runs the ordered
per-domain pattern loops of the source. -/
def classify_status (text : String) (domain : String) : String :=
  let t := pyLower text
  if domain = "linkedin" then
    if anyIn LINKEDIN_REJECT_PATTERNS t then "APPLICATION REJECTED (LinkedIn)"
    else if anyIn LINKEDIN_REVIEW_PATTERNS t then "APPLICATION UNDER REVIEW (LinkedIn)"
    else if anyIn LINKEDIN_VIEWED_PATTERNS t then "APPLICATION VIEWED (LinkedIn)"
    else if anyIn LINKEDIN_SUBMITTED_PATTERNS t then "APPLICATION SUBMITTED (LinkedIn)"
    else if anyIn CLOSED_PATTERNS t then "JOB CLOSED (LinkedIn)"
    else "UNKNOWN (LinkedIn)"
  else if domain = "workday" then
    if anyIn WORKDAY_REJECT_PATTERNS t then "APPLICATION REJECTED (Workday)"
    else if anyIn WORKDAY_INPROCESS_PATTERNS t then "APPLICATION IN PROCESS (Workday)"
    else if anyIn CLOSED_PATTERNS t then "JOB CLOSED (Workday)"
    else "UNKNOWN (Workday)"
  else
    if anyIn CLOSED_PATTERNS t then "JOB CLOSED (" ++ domain ++ ")"
    else "UNKNOWN (" ++ domain ++ ")"

/-! ## JSON values that can inhabit the credential cache -/

/-- Python values a JSON cache file can deserialize to. `float` carries the
exact rational value of the IEEE double, which is exact for the comparisons
made here (equality against the integer 2). -/
inductive PyVal where
  | null : PyVal
  | bool (b : Bool) : PyVal
  | int (n : Int) : PyVal
  | float (q : ℚ) : PyVal
  | str (s : String) : PyVal
  | list (xs : List PyVal) : PyVal
  | dict (kvs : List (String × PyVal)) : PyVal

/-- Python `cached_idx == 2`: true for the integer 2 and for floats whose
value is exactly 2 (bool compares as its integer value 0 or 1, so never
equals 2); everything else compares unequal. -/
def pyEqTwo : PyVal → Bool
  | .int n => n = 2
  | .float q => q = 2
  | _ => false

/-- Lookup in a Python dict modelled as an insertion-ordered association
list with unique keys. -/
def dictGet (d : List (String × PyVal)) (k : String) : Option PyVal :=
  match d.find? (fun kv => kv.1 = k) with
  | some kv => some kv.2
  | none => none

/-- Python `d[k] = v`: replaces the value in place when the key exists
(keeping its position), otherwise appends the new entry. -/
def dictSet (d : List (String × PyVal)) (k : String) (v : PyVal) :
    List (String × PyVal) :=
  if d.any (fun kv => kv.1 = k) then
    d.map (fun kv => if kv.1 = k then (k, v) else kv)
  else d ++ [(k, v)]

/-! ## workday_try_login -/

/-- Result of one `workday_try_login` call: the returned Bool, the cache
after the call, and the password indices attempted in order. -/
structure WLoginResult where
  success : Bool
  cache : List (String × PyVal)
  attempts : List Nat

/-- The `for idx in order` loop of `workday_try_login`: each index selects
`pwd1` for 1 and `pwd2` otherwise, the attempt outcome is supplied by the
oracle (the external browser interaction), and the first success stores its
index in the cache and returns. -/
def wdLoginLoop (tenant pwd1 pwd2 : String) (oracle : String → Bool)
    (cache : List (String × PyVal)) : List Nat → WLoginResult
  | [] => ⟨false, cache, []⟩
  | idx :: rest =>
    let pwd := if idx = 1 then pwd1 else pwd2
    if oracle pwd then ⟨true, dictSet cache tenant (.int idx), [idx]⟩
    else
      let r := wdLoginLoop tenant pwd1 pwd2 oracle cache rest
      ⟨r.success, r.cache, idx :: r.attempts⟩

/-- Embeds `workday_try_login`. Credentials come from the environment; a
missing variable is Python `None`, which is falsy exactly like the empty
string, so both are modelled as `""`. The attempt order is `[1, 2]` unless
the tenant has a cache entry comparing equal to 2. -/
def workday_try_login (email pwd1 pwd2 tenant : String)
    (cache : List (String × PyVal)) (oracle : String → Bool) : WLoginResult :=
  if email = "" ∨ pwd1 = "" ∨ pwd2 = "" then ⟨false, cache, []⟩
  else
    let order : List Nat :=
      match dictGet cache tenant with
      | some v => if pyEqTwo v then [2, 1] else [1, 2]
      | none => [1, 2]
    wdLoginLoop tenant pwd1 pwd2 oracle cache order

/-! ## find_columns and process_worksheet -/

/-- Accumulator loop of `find_columns`: a later matching header cell
overwrites an earlier one, as in the Python loop without `break`. -/
def fcGo : Nat → Option Nat → Option Nat → List String → Option Nat × Option Nat
  | _, u, d, [] => (u, d)
  | i, u, d, h :: t =>
    let name := pyLower (pyStrip h)
    let u2 := if name = "url" then some i else u
    let d2 := if name = "decision" then some i else d
    fcGo (i + 1) u2 d2 t

/-- Embeds `find_columns`: 0-based indices of the `URL` and `Decision`
columns, matched case-insensitively on the stripped header cells. -/
def find_columns (header : List String) : Option Nat × Option Nat :=
  fcGo 0 none none header

/-- A single cell write performed through the worksheet handle:
1-based row, 1-based column, written value. -/
structure WriteOp where
  rowIdx : Nat
  colIdx : Nat
  value : String
deriving DecidableEq, Repr

/-- External world supplied to the row processor: the page fetch for a
given values-index and URL (`.error k` is a raised exception whose type
name is `k`), the per-row login attempt outcome for a tenant and password,
and the Workday credentials from the environment. -/
structure RunEnv where
  fetch : Nat → String → Except String String
  login : Nat → String → String → Bool
  email : String
  pwd1 : String
  pwd2 : String

/-- The per-row loop of `process_worksheet`, carrying the values-index `i`
(the processed row is sheet row `i + 1`) and the in-memory Workday cache.
Returns the cell writes in order, the updated-row count and the final
cache. -/
def processRows (env : RunEnv) (u d : Nat) :
    Nat → List (List String) → List (String × PyVal) →
    List WriteOp × Nat × List (String × PyVal)
  | _, [], cache => ([], 0, cache)
  | i, row :: rest, cache =>
    if row.length ≤ max u d then processRows env u d (i + 1) rest cache
    else
      let url := pyStrip (row.getD u "")
      let dec := pyStrip (row.getD d "")
      if url = "" then processRows env u d (i + 1) rest cache
      else if dec ≠ "" then processRows env u d (i + 1) rest cache
      else
        let domain := detect_domain url
        let cache1 :=
          if domain = "workday" then
            match extract_workday_tenant url with
            | some t =>
              (workday_try_login env.email env.pwd1 env.pwd2 t cache
                (env.login i t)).cache
            | none => cache
          else cache
        let status :=
          match env.fetch i url with
          | .ok content => classify_status content domain
          | .error k => "ERROR: " ++ k
        let r := processRows env u d (i + 1) rest cache1
        (⟨i + 1, d + 1, status⟩ :: r.1, r.2.1 + 1, r.2.2)

/-- Embeds `process_worksheet`: empty sheets and sheets lacking a `URL` or
`Decision` header are skipped with no writes; otherwise the data rows
(values index 1 onward) are processed in order. -/
def process_worksheet (values : List (List String)) (env : RunEnv)
    (cache : List (String × PyVal)) :
    List WriteOp × Nat × List (String × PyVal) :=
  match values with
  | [] => ([], 0, cache)
  | header :: rows =>
    match find_columns header with
    | (some u, some d) => processRows env u d 1 rows cache
    | _ => ([], 0, cache)

/-! ## Substring lemmas -/

theorem subB_iff (p : List Char) : ∀ l : List Char, subB p l = true ↔ p <:+: l := by
  intro l
  induction l with
  | nil => cases p <;> simp [subB]
  | cons c t ih =>
    simp [subB, List.infix_cons_iff, List.isPrefixOf_iff_prefix, ih]

theorem map_id_of_fixed {f : Char → Char} (p : List Char)
    (hp : ∀ c ∈ p, f c = c) : p.map f = p := by
  induction p with
  | nil => rfl
  | cons c t ih => simp_all

theorem subB_map_lower (p l : List Char) (hp : ∀ c ∈ p, asciiLower c = c)
    (h : subB p l = true) : subB p (l.map asciiLower) = true := by
  have h1 : p <:+: l := (subB_iff p l).1 h
  have h2 : p.map asciiLower <:+: l.map asciiLower := h1.map asciiLower
  rw [map_id_of_fixed p hp] at h2
  exact (subB_iff p _).2 h2

theorem pyIn_lower (p text : String) (hp : ∀ c ∈ p.toList, asciiLower c = c)
    (h : pyIn p text = true) : pyIn p (pyLower text) = true := by
  unfold pyIn pyLower at *
  exact subB_map_lower _ _ hp h

/-! ## Claim C3: pattern list sizes -/

/-- C3 counterexample: the generic closed-phrase list does not have ten
entries — the source lists nine phrases. -/
theorem closed_patterns_not_ten : ¬ CLOSED_PATTERNS.length = 10 := by
  decide

/-- C3 (amended): the generic closed-phrase list shared by all domains has
exactly nine fixed phrases, and the domain-specific lists have exactly
3 reject, 2 review, 2 viewed and 2 submitted phrases for LinkedIn, and
3 reject and 3 in-process phrases for Workday. -/
theorem pattern_list_sizes :
    CLOSED_PATTERNS.length = 9 ∧
    LINKEDIN_REJECT_PATTERNS.length = 3 ∧
    LINKEDIN_REVIEW_PATTERNS.length = 2 ∧
    LINKEDIN_VIEWED_PATTERNS.length = 2 ∧
    LINKEDIN_SUBMITTED_PATTERNS.length = 2 ∧
    WORKDAY_REJECT_PATTERNS.length = 3 ∧
    WORKDAY_INPROCESS_PATTERNS.length = 3 := by
  decide

/-! ## Claim C9: domain classification refines the spec marker list -/

/-- C9: `detect_domain` is total on every input string and agrees with the
specification's ordered case-insensitive marker containment: linkedin.com,
myworkdayjobs.com, greenhouse.io, lever.co, taleo.net, smartrecruiters.com
checked in that order, generic when none matches. -/
theorem detect_domain_eq_spec : ∀ url : String,
    detect_domain url = detectDomainSpec url := by
  intro url
  rfl

/-! ## Claim C5: Workday reject-phrases dominate in-process-phrases -/

/-- C5: for every page text containing both some Workday reject phrase and
some Workday in-process phrase as substrings, `classify_status` on the
workday domain returns exactly "APPLICATION REJECTED (Workday)", because
reject phrases are checked first. -/
theorem classify_status_workday_reject_first (text : String)
    (hr : ∃ p ∈ WORKDAY_REJECT_PATTERNS, pyIn p text = true)
    (_hi : ∃ q ∈ WORKDAY_INPROCESS_PATTERNS, pyIn q text = true) :
    classify_status text "workday" = "APPLICATION REJECTED (Workday)" := by
  obtain ⟨p, hp, hin⟩ := hr
  have hfix : ∀ c ∈ p.toList, asciiLower c = c := by
    fin_cases hp <;> decide
  have h2 : pyIn p (pyLower text) = true := pyIn_lower p text hfix hin
  have hany : anyIn WORKDAY_REJECT_PATTERNS (pyLower text) = true :=
    List.any_eq_true.2 ⟨p, hp, h2⟩
  unfold classify_status
  rw [if_neg (by decide : ¬("workday" = "linkedin")),
    if_pos (by decide : ("workday" = "workday")), if_pos hany]

/-- Witness for C5 at a concrete text containing the reject phrase
"not selected" and the in-process phrase "under review". -/
theorem classify_status_workday_reject_first_witness :
    classify_status "you were not selected. still under review." "workday" =
      "APPLICATION REJECTED (Workday)" :=
  classify_status_workday_reject_first _ (by decide) (by decide)

/-! ## Claim C1: tenant extraction and the Workday URL shape -/

theorem matchWdAt_ten {l : List Char} {t : List Char}
    (h : matchWdAt l = some t) :
    t = (l.drop 8).takeWhile (fun c => c ≠ '.') := by
  simp only [matchWdAt] at h
  split at h
  · split at h
    · exact absurd h (by simp)
    · split at h
      · split at h
        · exact absurd h (by simp)
        · split at h
          · exact (Option.some.injEq _ _ ▸ h).symm
          · exact absurd h (by simp)
      · exact absurd h (by simp)
  · exact absurd h (by simp)

theorem matchWdAt_marker {l : List Char} {t : List Char}
    (h : matchWdAt l = some t) :
    subB "myworkdayjobs.com".toList l = true := by
  simp only [matchWdAt] at h
  split at h
  case isTrue hpre =>
    split at h
    · exact absurd h (by simp)
    · split at h
      case h_1 r2 r4 heq =>
        split at h
        · exact absurd h (by simp)
        · split at h
          case isTrue hr5 =>
            rw [List.isPrefixOf_iff_prefix] at hpre hr5
            obtain ⟨tail8, htail8⟩ := hpre
            obtain ⟨rest, hrest⟩ := hr5
            rw [subB_iff]
            have hr : l.drop 8 =
                (l.drop 8).takeWhile (fun c => c ≠ '.') ++
                  (l.drop 8).dropWhile (fun c => c ≠ '.') :=
              (List.takeWhile_append_dropWhile _ _).symm
            have hr4 : r4 = r4.takeWhile Char.isDigit ++ r4.dropWhile Char.isDigit :=
              (List.takeWhile_append_dropWhile _ _).symm
    -- reassemble l from its pieces and exhibit the infix decomposition
            have hl : l = "https://".toList ++ l.drop 8 := by
              conv_lhs => rw [← htail8]
              congr 1
              rw [← htail8]
              simp
            refine ⟨"https://".toList ++
              (l.drop 8).takeWhile (fun c => c ≠ '.') ++
              ['.', 'w', 'd'] ++ r4.takeWhile Char.isDigit ++ ['.'], rest, ?_⟩
            rw [heq] at hr
            conv_rhs => rw [hl, hr, hr4, ← hrest]
            have hdot : ('.' :: "myworkdayjobs.com".toList) =
                ".myworkdayjobs.com".toList := rfl
            rw [← hdot]
            simp
          · exact absurd h (by simp)
      · exact absurd h (by simp)
  · exact absurd h (by simp)

theorem searchWd_of_head {l : List Char} {t : List Char}
    (h : matchWdAt l = some t) : searchWd l = some t := by
  cases l with
  | nil =>
    have hn : matchWdAt ([] : List Char) = none := by decide
    rw [hn] at h
    exact absurd h (by simp)
  | cons c r => simp [searchWd, h]

theorem searchWd_none {l : List Char}
    (h : ∀ i, matchWdAt (l.drop i) = none) : searchWd l = none := by
  induction l with
  | nil => rfl
  | cons c r ih =>
    have h0 := h 0
    simp only [List.drop_zero] at h0
    simp only [searchWd, h0]
    exact ih fun i => by simpa using h (i + 1)

/-- C1 counterexample: the claim fails on the code in both directions.
A URL of the exact anchored shape whose path later contains the marker
`linkedin.com` is classified linkedin, not workday; and a malformed string
that merely contains the pattern mid-string (so is not of the shape) still
extracts a tenant instead of returning absent. -/
theorem tenant_claim_counterexample :
    (hasWorkdayShape "https://acme.wd3.myworkdayjobs.com/r/linkedin.com" = true ∧
      detect_domain "https://acme.wd3.myworkdayjobs.com/r/linkedin.com" ≠ "workday") ∧
    (hasWorkdayShape "x https://acme.wd1.myworkdayjobs.com/en/job/1" = false ∧
      extract_workday_tenant "x https://acme.wd1.myworkdayjobs.com/en/job/1" ≠ none) := by
  decide

theorem searchWd_leftmost : ∀ (l : List Char) (i : Nat) (t : List Char),
    matchWdAt (l.drop i) = some t →
    ∃ j, j ≤ i ∧ ∃ t2, matchWdAt (l.drop j) = some t2 ∧ searchWd l = some t2 := by
  intro l
  induction l with
  | nil =>
    intro i t h
    rw [List.drop_nil] at h
    have hn : matchWdAt ([] : List Char) = none := by decide
    rw [hn] at h
    exact absurd h (by simp)
  | cons c r ih =>
    intro i t h
    cases hm : matchWdAt (c :: r) with
    | some t0 =>
      exact ⟨0, Nat.zero_le i, t0, by simpa using hm, by simp [searchWd, hm]⟩
    | none =>
      cases i with
      | zero =>
        rw [List.drop_zero, hm] at h
        exact absurd h (by simp)
      | succ i2 =>
        rw [List.drop_succ_cons] at h
        obtain ⟨j, hj, t2, hmj, hsj⟩ := ih i2 t h
        refine ⟨j + 1, by omega, t2, ?_, ?_⟩
        · rw [List.drop_succ_cons]
          exact hmj
        · simp [searchWd, hm, hsj]

/-- C1 (amended): for every URL of the exact anchored shape
`https://<tenant>.wd<digits>.myworkdayjobs.com...`, extraction returns the
segment between `https://` and the first dot, and `detect_domain`
classifies the URL as workday provided the URL does not also contain the
earlier marker `linkedin.com`; extraction searches for the pattern anywhere
in the string, so it returns absent (and never throws) exactly for the
strings in which the pattern occurs at no position, and a string in which
the pattern occurs at any position yields the tenant label captured at the
leftmost matching position (the segment between that occurrence of
`https://` and the next dot). -/
theorem tenant_extraction_amended (url : String) :
    (hasWorkdayShape url = true →
      extract_workday_tenant url = some (firstLabel url)) ∧
    (hasWorkdayShape url = true →
      pyIn "linkedin.com" (pyLower url) = false →
      detect_domain url = "workday") ∧
    ((∀ i, matchWdAt (url.toList.drop i) = none) →
      extract_workday_tenant url = none) ∧
    (∀ i, (matchWdAt (url.toList.drop i)).isSome = true →
      ∃ j, j ≤ i ∧ (matchWdAt (url.toList.drop j)).isSome = true ∧
        extract_workday_tenant url =
          some ⟨((url.toList.drop j).drop 8).takeWhile (fun c => c ≠ '.')⟩) := by
  refine ⟨?_, ?_, ?_, ?_⟩
  · intro hs
    obtain ⟨t, ht⟩ := Option.isSome_iff_exists.1 hs
    have := matchWdAt_ten ht
    subst this
    unfold extract_workday_tenant
    rw [searchWd_of_head ht]
    rfl
  · intro hs hlink
    obtain ⟨t, ht⟩ := Option.isSome_iff_exists.1 hs
    have hmark : subB "myworkdayjobs.com".toList url.toList = true :=
      matchWdAt_marker ht
    have hfix : ∀ c ∈ "myworkdayjobs.com".toList, asciiLower c = c := by decide
    have hin : pyIn "myworkdayjobs.com" (pyLower url) = true :=
      subB_map_lower _ _ hfix hmark
    unfold detect_domain
    rw [if_neg (by simp [hlink]), if_pos hin]
  · intro hnone
    unfold extract_workday_tenant
    rw [searchWd_none hnone]
    rfl
  · intro i hi
    obtain ⟨t, ht⟩ := Option.isSome_iff_exists.1 hi
    obtain ⟨j, hj, t2, hmj, hsj⟩ := searchWd_leftmost url.toList i t ht
    have ht2 := matchWdAt_ten hmj
    refine ⟨j, hj, by rw [hmj]; rfl, ?_⟩
    unfold extract_workday_tenant
    rw [hsj, ht2]
    rfl

/-- Witness for C1 (amended) at the conforming URL of the source docstring
and at a string whose only pattern occurrence is mid-string: the latter
still yields the embedded tenant label "acme". -/
theorem tenant_extraction_amended_witness :
    extract_workday_tenant "https://spectris.wd3.myworkdayjobs.com/careers" =
        some "spectris" ∧
    detect_domain "https://spectris.wd3.myworkdayjobs.com/careers" = "workday" ∧
    extract_workday_tenant "x https://acme.wd1.myworkdayjobs.com/en/job/1" =
        some "acme" := by
  refine ⟨?_, ?_, ?_⟩
  · rw [(tenant_extraction_amended
      "https://spectris.wd3.myworkdayjobs.com/careers").1 (by decide)]
    decide
  · exact (tenant_extraction_amended
      "https://spectris.wd3.myworkdayjobs.com/careers").2.1 (by decide) (by decide)
  · obtain ⟨j, hj, hs, heq⟩ :=
      (tenant_extraction_amended
        "x https://acme.wd1.myworkdayjobs.com/en/job/1").2.2.2 2 (by decide)
    have hcases : j = 0 ∨ j = 1 ∨ j = 2 := by omega
    rcases hcases with rfl | rfl | rfl
    · exact absurd hs (by decide)
    · exact absurd hs (by decide)
    · rw [heq]
      decide

/-! ## Login loop lemmas -/

theorem wdLoginLoop_pair (tenant pwd1 pwd2 : String) (oracle : String → Bool)
    (cache : List (String × PyVal)) (a b : Nat) :
    (wdLoginLoop tenant pwd1 pwd2 oracle cache [a, b]).attempts = [a] ∨
    (wdLoginLoop tenant pwd1 pwd2 oracle cache [a, b]).attempts = [a, b] := by
  by_cases hA : oracle (if a = 1 then pwd1 else pwd2)
  · left
    simp [wdLoginLoop, hA]
  · by_cases hB : oracle (if b = 1 then pwd1 else pwd2)
    · right
      simp [wdLoginLoop, hA, hB]
    · right
      simp [wdLoginLoop, hA, hB]

theorem wdLoginLoop_all_fail (tenant pwd1 pwd2 : String) (oracle : String → Bool)
    (cache : List (String × PyVal)) (order : List Nat)
    (h : ∀ i ∈ order, oracle (if i = 1 then pwd1 else pwd2) = false) :
    wdLoginLoop tenant pwd1 pwd2 oracle cache order = ⟨false, cache, order⟩ := by
  induction order with
  | nil => rfl
  | cons idx rest ih =>
    have hidx := h idx (by simp)
    simp only [wdLoginLoop, hidx]
    rw [ih fun i hi => h i (by simp [hi])]
    simp

theorem wdLoginLoop_success (tenant pwd1 pwd2 : String) (oracle : String → Bool)
    (cache : List (String × PyVal)) (order : List Nat)
    (h : (wdLoginLoop tenant pwd1 pwd2 oracle cache order).success = true) :
    ∃ i ∈ order, oracle (if i = 1 then pwd1 else pwd2) = true ∧
      (wdLoginLoop tenant pwd1 pwd2 oracle cache order).cache =
        dictSet cache tenant (PyVal.int i) := by
  induction order with
  | nil => exact absurd h (by simp [wdLoginLoop])
  | cons idx rest ih =>
    by_cases hidx : oracle (if idx = 1 then pwd1 else pwd2)
    · exact ⟨idx, by simp, hidx, by simp [wdLoginLoop, hidx]⟩
    · simp only [wdLoginLoop, hidx, Bool.false_eq_true, if_false] at h ⊢
      obtain ⟨i, hi, ho, hc⟩ := ih h
      exact ⟨i, by simp [hi], ho, hc⟩

/-! ## Claim C4: cache-driven attempt ordering -/

/-- C4: with credentials configured, a cached successful index is always
attempted first and the other index second; with no cache entry the order
is index 1 then index 2 (the second attempt happens only when the first
fails, so the attempt list is the cached index alone or followed by the
other index). -/
theorem workday_try_login_order (email pwd1 pwd2 tenant : String)
    (cache : List (String × PyVal)) (oracle : String → Bool)
    (he : email ≠ "") (h1 : pwd1 ≠ "") (h2 : pwd2 ≠ "") :
    (dictGet cache tenant = some (PyVal.int 2) →
      (workday_try_login email pwd1 pwd2 tenant cache oracle).attempts = [2] ∨
      (workday_try_login email pwd1 pwd2 tenant cache oracle).attempts = [2, 1]) ∧
    (dictGet cache tenant = some (PyVal.int 1) →
      (workday_try_login email pwd1 pwd2 tenant cache oracle).attempts = [1] ∨
      (workday_try_login email pwd1 pwd2 tenant cache oracle).attempts = [1, 2]) ∧
    (dictGet cache tenant = none →
      (workday_try_login email pwd1 pwd2 tenant cache oracle).attempts = [1] ∨
      (workday_try_login email pwd1 pwd2 tenant cache oracle).attempts = [1, 2]) := by
  unfold workday_try_login
  rw [if_neg (by simp [he, h1, h2])]
  refine ⟨fun hg => ?_, fun hg => ?_, fun hg => ?_⟩
  · rw [hg]
    exact wdLoginLoop_pair tenant pwd1 pwd2 oracle cache 2 1
  · rw [hg]
    exact wdLoginLoop_pair tenant pwd1 pwd2 oracle cache 1 2
  · rw [hg]
    exact wdLoginLoop_pair tenant pwd1 pwd2 oracle cache 1 2

/-- Witness for C4: cache holding acme maps to 2 and credentials present;
candidate 2 is attempted strictly before candidate 1. -/
theorem workday_try_login_order_witness :
    (workday_try_login "e" "p1" "p2" "acme" [("acme", PyVal.int 2)]
        (fun _ => false)).attempts = [2] ∨
    (workday_try_login "e" "p1" "p2" "acme" [("acme", PyVal.int 2)]
        (fun _ => false)).attempts = [2, 1] :=
  (workday_try_login_order "e" "p1" "p2" "acme" [("acme", PyVal.int 2)]
    (fun _ => false) (by decide) (by decide) (by decide)).1 rfl

/-! ## Claim C7: login failure leaves the cache unchanged -/

/-- C7: if both candidate passwords fail, `workday_try_login` returns
failure and the cache is exactly the cache passed in; the cache is mutated
only on a successful attempt, where the succeeding index is stored for the
tenant. -/
theorem workday_try_login_failure_atomic (email pwd1 pwd2 tenant : String)
    (cache : List (String × PyVal)) (oracle : String → Bool) :
    (oracle pwd1 = false → oracle pwd2 = false →
      (workday_try_login email pwd1 pwd2 tenant cache oracle).success = false ∧
      (workday_try_login email pwd1 pwd2 tenant cache oracle).cache = cache) ∧
    ((workday_try_login email pwd1 pwd2 tenant cache oracle).success = true →
      ∃ i : ℕ, (i = 1 ∨ i = 2) ∧ oracle (if i = 1 then pwd1 else pwd2) = true ∧
        (workday_try_login email pwd1 pwd2 tenant cache oracle).cache =
          dictSet cache tenant (PyVal.int i)) := by
  unfold workday_try_login
  by_cases hm : email = "" ∨ pwd1 = "" ∨ pwd2 = ""
  · rw [if_pos hm]
    exact ⟨fun _ _ => ⟨rfl, rfl⟩, fun h => absurd h (by simp)⟩
  · rw [if_neg hm]
    constructor
    · intro ho1 ho2
      have hall : ∀ order : List Nat,
          wdLoginLoop tenant pwd1 pwd2 oracle cache order =
            ⟨false, cache, order⟩ := by
        intro order
        refine wdLoginLoop_all_fail tenant pwd1 pwd2 oracle cache order ?_
        intro i _
        by_cases hi : i = 1 <;> simp [hi, ho1, ho2]
      rw [hall]
      exact ⟨rfl, rfl⟩
    · intro hs
      obtain ⟨i, hi, ho, hc⟩ := wdLoginLoop_success tenant pwd1 pwd2 oracle cache _ hs
      refine ⟨i, ?_, ho, hc⟩
      rcases hg : dictGet cache tenant with _ | v <;> rw [hg] at hi
      · simpa using hi
      · by_cases hv : pyEqTwo v = true <;> simp [hv] at hi <;> tauto

/-- Witness for C7: empty cache, both passwords failing; the call fails and
the cache stays empty. -/
theorem workday_try_login_failure_atomic_witness :
    (workday_try_login "e" "p1" "p2" "acme" [] (fun _ => false)).success = false ∧
    (workday_try_login "e" "p1" "p2" "acme" [] (fun _ => false)).cache = [] :=
  (workday_try_login_failure_atomic "e" "p1" "p2" "acme" []
    (fun _ => false)).1 rfl rfl

/-! ## Claim C10: which cache values reverse the attempt order -/

/-- C10 counterexample: a cache entry holding the float 2.0 — a value that
is not the integer 2 — still reverses the Workday attempt order, because
the Python comparison `cached_idx == 2` is numeric equality. -/
theorem cache_float_two_counterexample :
    (workday_try_login "e" "p1" "p2" "acme" [("acme", PyVal.float 2)]
        (fun _ => false)).attempts = [2, 1] ∧
    PyVal.float 2 ≠ PyVal.int 2 :=
  ⟨by decide, fun h => PyVal.noConfusion h⟩

/-- C10 (amended): a cache entry reverses the attempt order exactly when
its value compares numerically equal to 2 (the integer 2 or the float 2.0);
every other value — including 1, the string "2", booleans, null, lists and
dicts — yields the default order, candidate 1 then candidate 2. -/
theorem workday_order_numeric_two (email pwd1 pwd2 tenant : String)
    (cache : List (String × PyVal)) (oracle : String → Bool) (v : PyVal)
    (he : email ≠ "") (h1 : pwd1 ≠ "") (h2 : pwd2 ≠ "")
    (hv : dictGet cache tenant = some v) :
    (pyEqTwo v = false →
      (workday_try_login email pwd1 pwd2 tenant cache oracle).attempts = [1] ∨
      (workday_try_login email pwd1 pwd2 tenant cache oracle).attempts = [1, 2]) ∧
    (pyEqTwo v = true →
      (workday_try_login email pwd1 pwd2 tenant cache oracle).attempts = [2] ∨
      (workday_try_login email pwd1 pwd2 tenant cache oracle).attempts = [2, 1]) := by
  unfold workday_try_login
  rw [if_neg (by simp [he, h1, h2]), hv]
  constructor
  · intro hq
    simp only [hq, Bool.false_eq_true, if_false]
    exact wdLoginLoop_pair tenant pwd1 pwd2 oracle cache 1 2
  · intro hq
    simp only [hq, if_true]
    exact wdLoginLoop_pair tenant pwd1 pwd2 oracle cache 2 1

/-- Witness for C10 (amended): the string "2" does not reverse the order. -/
theorem workday_order_numeric_two_witness :
    (workday_try_login "e" "p1" "p2" "acme" [("acme", PyVal.str "2")]
        (fun _ => false)).attempts = [1] ∨
    (workday_try_login "e" "p1" "p2" "acme" [("acme", PyVal.str "2")]
        (fun _ => false)).attempts = [1, 2] :=
  (workday_order_numeric_two "e" "p1" "p2" "acme" [("acme", PyVal.str "2")]
    (fun _ => false) (PyVal.str "2") (by decide) (by decide) (by decide) rfl).1 rfl

/-! ## Row processing lemmas -/

/-- The write (if any) that the row at values-index `i` produces: the row
is skipped when it is too short, has an empty URL or a non-empty stripped
Decision; otherwise one write to sheet row `i + 1`, Decision column
`d + 1`, with the classified status or the fetch error label. The written
value never depends on the credential cache. -/
def rowWrite (env : RunEnv) (u d i : Nat) (row : List String) : Option WriteOp :=
  if row.length ≤ max u d then none
  else
    let url := pyStrip (row.getD u "")
    let dec := pyStrip (row.getD d "")
    if url = "" then none
    else if dec ≠ "" then none
    else
      let domain := detect_domain url
      let status :=
        match env.fetch i url with
        | .ok content => classify_status content domain
        | .error k => "ERROR: " ++ k
      some ⟨i + 1, d + 1, status⟩

/-- The writes of the row loop, as a cache-independent scan. -/
def writesOf (env : RunEnv) (u d : Nat) : Nat → List (List String) → List WriteOp
  | _, [] => []
  | i, row :: rest =>
    match rowWrite env u d i row with
    | some w => w :: writesOf env u d (i + 1) rest
    | none => writesOf env u d (i + 1) rest

theorem processRows_writes (env : RunEnv) (u d : Nat) :
    ∀ (rows : List (List String)) (i : Nat) (cache : List (String × PyVal)),
    (processRows env u d i rows cache).1 = writesOf env u d i rows ∧
    (processRows env u d i rows cache).2.1 = (writesOf env u d i rows).length := by
  intro rows
  induction rows with
  | nil => intro i cache; exact ⟨rfl, rfl⟩
  | cons row rest ih =>
    intro i cache
    simp only [processRows, writesOf, rowWrite]
    by_cases hlen : row.length ≤ max u d
    · simp only [if_pos hlen]
      exact ih (i + 1) cache
    · simp only [if_neg hlen]
      by_cases hurl : pyStrip (row.getD u "") = ""
      · simp only [if_pos hurl]
        exact ih (i + 1) cache
      · simp only [if_neg hurl]
        by_cases hdec : pyStrip (row.getD d "") ≠ ""
        · simp only [if_pos hdec]
          exact ih (i + 1) cache
        · simp only [if_neg hdec]
          constructor
          · simp only [(ih (i + 1) _).1]
          · simp only [(ih (i + 1) _).2, List.length_cons]

theorem writesOf_mem (env : RunEnv) (u d : Nat) :
    ∀ (rows : List (List String)) (s : Nat) (w : WriteOp),
    w ∈ writesOf env u d s rows ↔
    ∃ j, j < rows.length ∧ rowWrite env u d (s + j) (rows.getD j []) = some w := by
  intro rows
  induction rows with
  | nil => intro s w; simp [writesOf]
  | cons row rest ih =>
    intro s w
    simp only [writesOf]
    constructor
    · intro hmem
      cases hrw : rowWrite env u d s row with
      | some w2 =>
        rw [hrw] at hmem
        rcases List.mem_cons.1 hmem with rfl | hmem2
        · exact ⟨0, by simp, by simpa using hrw⟩
        · obtain ⟨j, hj, hjw⟩ := (ih (s + 1) w).1 hmem2
          refine ⟨j + 1, by simpa using hj, ?_⟩
          rw [show s + (j + 1) = s + 1 + j by omega]
          simpa using hjw
      | none =>
        rw [hrw] at hmem
        obtain ⟨j, hj, hjw⟩ := (ih (s + 1) w).1 hmem
        refine ⟨j + 1, by simpa using hj, ?_⟩
        rw [show s + (j + 1) = s + 1 + j by omega]
        simpa using hjw
    · rintro ⟨j, hj, hjw⟩
      cases j with
      | zero =>
        simp only [List.getD_cons_zero, Nat.add_zero] at hjw
        rw [hjw]
        simp
      | succ j2 =>
        have hmem2 : w ∈ writesOf env u d (s + 1) rest := by
          refine (ih (s + 1) w).2 ⟨j2, by simpa using hj, ?_⟩
          rw [show s + 1 + j2 = s + (j2 + 1) by omega]
          simpa using hjw
        cases hrw : rowWrite env u d s row <;> simp [hmem2]

theorem rowWrite_rowIdx {env : RunEnv} {u d i : Nat} {row : List String}
    {w : WriteOp} (h : rowWrite env u d i row = some w) : w.rowIdx = i + 1 := by
  simp only [rowWrite] at h
  split at h
  · exact absurd h (by simp)
  · split at h
    · exact absurd h (by simp)
    · split at h
      · exact absurd h (by simp)
      · cases h
        rfl

theorem two_le_length_of_mem {α : Type} {a b : α} :
    ∀ {l : List α}, a ∈ l → b ∈ l → a ≠ b → 2 ≤ l.length := by
  intro l
  induction l with
  | nil => intro ha _ _; cases ha
  | cons x t ih =>
    intro ha hb hne
    rcases List.mem_cons.1 ha with rfl | hat
    · rcases List.mem_cons.1 hb with rfl | hbt
      · exact absurd rfl hne
      · have := List.length_pos_of_mem hbt
        simp only [List.length_cons]
        omega
    · have := List.length_pos_of_mem hat
      simp only [List.length_cons]
      omega

/-! ## Claim C2: rows with a filled Decision are never written -/

theorem rowWrite_none_of_dec {env : RunEnv} {u d i : Nat} {row : List String}
    (h : pyStrip (row.getD d "") ≠ "") : rowWrite env u d i row = none := by
  simp only [rowWrite]
  split
  · rfl
  · split
    · rfl
    · rfl

/-- C2 (amended): for every sheet row whose Decision cell holds a value
that is non-empty after stripping whitespace, `process_worksheet` never
writes to that row, regardless of the row URL, the cache, the login
outcomes or any page content. -/
theorem process_worksheet_skips_filled_decision
    (env : RunEnv) (header : List String) (rows : List (List String))
    (cache : List (String × PyVal)) (u d i : Nat)
    (hcols : find_columns header = (some u, some d))
    (hi : i < rows.length)
    (hdec : pyStrip ((rows.getD i []).getD d "") ≠ "") :
    ∀ w ∈ (process_worksheet (header :: rows) env cache).1, w.rowIdx ≠ i + 2 := by
  intro w hw hrow
  simp only [process_worksheet, hcols] at hw
  rw [(processRows_writes env u d rows 1 cache).1] at hw
  obtain ⟨j, hj, hjw⟩ := (writesOf_mem env u d rows 1 w).1 hw
  have hidx := rowWrite_rowIdx hjw
  have hji : j = i := by omega
  subst hji
  rw [rowWrite_none_of_dec hdec] at hjw
  exact absurd hjw (by simp)

/-- Concrete environment used in closed instances: every fetch succeeds
with empty page text, every login attempt fails, credentials present. -/
def cexEnv : RunEnv where
  fetch := fun _ _ => .ok ""
  login := fun _ _ _ => false
  email := "e"
  pwd1 := "p1"
  pwd2 := "p2"

/-- C2 counterexample: a Decision cell holding the non-empty value " "
(one space) strips to empty, so the row is still processed and its
Decision cell is written — the claim as stated, which quantifies over all
rows with a non-empty Decision value, is false. -/
theorem decision_whitespace_counterexample :
    ((([["URL", "Decision"], ["https://x", " "]].getD 1 []).getD 1 "") ≠ "") ∧
    (⟨2, 2, "UNKNOWN (generic)"⟩ : WriteOp) ∈
      (process_worksheet [["URL", "Decision"], ["https://x", " "]] cexEnv []).1 := by
  decide

/-- Witness for C2 (amended): in a sheet whose first data row has Decision
"done", the write produced by the second data row does not target sheet
row 2. -/
theorem process_worksheet_skips_filled_decision_witness :
    (⟨3, 2, "UNKNOWN (generic)"⟩ : WriteOp).rowIdx ≠ 2 :=
  process_worksheet_skips_filled_decision cexEnv ["URL", "Decision"]
    [["https://a", "done"], ["https://b", ""]] [] 0 1 0 (by decide) (by decide)
    (by decide) ⟨3, 2, "UNKNOWN (generic)"⟩ (by decide)

/-! ## Claim C6: fetch failures become ERROR labels, row by row -/

theorem rowWrite_error {env : RunEnv} {u d i : Nat} {row : List String} {k : String}
    (hlen : max u d < row.length)
    (hurl : pyStrip (row.getD u "") ≠ "")
    (hdec : pyStrip (row.getD d "") = "")
    (hf : env.fetch i (pyStrip (row.getD u "")) = .error k) :
    rowWrite env u d i row = some ⟨i + 1, d + 1, "ERROR: " ++ k⟩ := by
  simp only [rowWrite]
  rw [if_neg (by omega), if_neg hurl, if_neg (not_not_intro hdec), hf]

/-- C6: for every two distinct eligible rows (long enough, non-empty URL,
empty stripped Decision) whose fetches raise failures with kind names `k1`
and `k2`, the run writes "ERROR: k1" to the first row's Decision cell and
"ERROR: k2" to the second row's, the updated counter equals the number of
writes, and it counts at least these two rows — the sheet is not
aborted. -/
theorem process_worksheet_error_rows
    (env : RunEnv) (header : List String) (rows : List (List String))
    (cache : List (String × PyVal)) (u d i j : Nat) (k1 k2 : String)
    (hcols : find_columns header = (some u, some d))
    (hij : i < j) (hj : j < rows.length)
    (hleni : max u d < (rows.getD i []).length)
    (hurli : pyStrip ((rows.getD i []).getD u "") ≠ "")
    (hdeci : pyStrip ((rows.getD i []).getD d "") = "")
    (hlenj : max u d < (rows.getD j []).length)
    (hurlj : pyStrip ((rows.getD j []).getD u "") ≠ "")
    (hdecj : pyStrip ((rows.getD j []).getD d "") = "")
    (hfi : env.fetch (i + 1) (pyStrip ((rows.getD i []).getD u "")) = .error k1)
    (hfj : env.fetch (j + 1) (pyStrip ((rows.getD j []).getD u "")) = .error k2) :
    (⟨i + 2, d + 1, "ERROR: " ++ k1⟩ : WriteOp) ∈
      (process_worksheet (header :: rows) env cache).1 ∧
    (⟨j + 2, d + 1, "ERROR: " ++ k2⟩ : WriteOp) ∈
      (process_worksheet (header :: rows) env cache).1 ∧
    (process_worksheet (header :: rows) env cache).2.1 =
      (process_worksheet (header :: rows) env cache).1.length ∧
    2 ≤ (process_worksheet (header :: rows) env cache).2.1 := by
  have hred : process_worksheet (header :: rows) env cache =
      processRows env u d 1 rows cache := by
    simp [process_worksheet, hcols]
  rw [hred]
  rw [(processRows_writes env u d rows 1 cache).1,
    (processRows_writes env u d rows 1 cache).2]
  have hmi : (⟨i + 2, d + 1, "ERROR: " ++ k1⟩ : WriteOp) ∈ writesOf env u d 1 rows := by
    refine (writesOf_mem env u d rows 1 _).2 ⟨i, by omega, ?_⟩
    rw [show 1 + i = i + 1 by omega]
    exact rowWrite_error hleni hurli hdeci hfi
  have hmj : (⟨j + 2, d + 1, "ERROR: " ++ k2⟩ : WriteOp) ∈ writesOf env u d 1 rows := by
    refine (writesOf_mem env u d rows 1 _).2 ⟨j, by omega, ?_⟩
    rw [show 1 + j = j + 1 by omega]
    exact rowWrite_error hlenj hurlj hdecj hfj
  have hne : (⟨i + 2, d + 1, "ERROR: " ++ k1⟩ : WriteOp) ≠
      ⟨j + 2, d + 1, "ERROR: " ++ k2⟩ := by
    intro hcontra
    have := congrArg WriteOp.rowIdx hcontra
    simp only at this
    omega
  exact ⟨hmi, hmj, rfl, two_le_length_of_mem hmi hmj hne⟩

/-- Environment whose every fetch raises, with exception type names
distinguishing the rows. -/
def errEnv : RunEnv where
  fetch := fun i _ => .error ("TimeoutError" ++ toString i)
  login := fun _ _ _ => false
  email := "e"
  pwd1 := "p1"
  pwd2 := "p2"

/-- Witness for C6: two consecutive failing rows each get their own ERROR
label and the counter counts both. -/
theorem process_worksheet_error_rows_witness :
    (⟨2, 2, "ERROR: TimeoutError1"⟩ : WriteOp) ∈
      (process_worksheet [["URL", "Decision"], ["https://a", ""], ["https://b", ""]]
        errEnv []).1 ∧
    (⟨3, 2, "ERROR: TimeoutError2"⟩ : WriteOp) ∈
      (process_worksheet [["URL", "Decision"], ["https://a", ""], ["https://b", ""]]
        errEnv []).1 ∧
    (process_worksheet [["URL", "Decision"], ["https://a", ""], ["https://b", ""]]
        errEnv []).2.1 =
      (process_worksheet [["URL", "Decision"], ["https://a", ""], ["https://b", ""]]
        errEnv []).1.length ∧
    2 ≤ (process_worksheet [["URL", "Decision"], ["https://a", ""], ["https://b", ""]]
        errEnv []).2.1 :=
  process_worksheet_error_rows errEnv ["URL", "Decision"]
    [["https://a", ""], ["https://b", ""]] [] 0 1 0 1 "TimeoutError1" "TimeoutError2"
    (by decide) (by decide) (by decide) (by decide) (by decide) (by decide)
    (by decide) (by decide) (by decide) rfl rfl

/-! ## Claim C8: JSON credential cache round trip

The cache file is modelled as its text content. `save_workday_cache` is
`json.dump(cache, f, indent=2)` for a flat mapping from strings to small
integers — the only shape this program ever stores; `load_workday_cache`
is `json.load` restricted to that same shape, returning the empty mapping
when the file is absent or unparsable. The string escaping is the
`ensure_ascii` encoder of the json module: the two-character escapes for
backslash, quote and the five control shorthands, `\u00xx` for other
control characters, `\uxxxx` for every character above tilde, split into a
surrogate pair beyond the basic plane. The decoder accepts the escapes the
json scanner accepts, rejecting raw control characters and the lone
surrogates that a Lean `Char` cannot represent. -/

/-- Lowercase hex digit, as Python `format(n, "04x")` produces. -/
def hexDigit (n : Nat) : Char :=
  if n < 10 then Char.ofNat (48 + n) else Char.ofNat (87 + n)

/-- Four lowercase hex digits of a value below 0x10000. -/
def hex4 (n : Nat) : List Char :=
  [hexDigit (n / 4096 % 16), hexDigit (n / 256 % 16),
   hexDigit (n / 16 % 16), hexDigit (n % 16)]

/-- Value of one hex digit; the scanner accepts both cases. -/
def decodeHexDigit (c : Char) : Option Nat :=
  if '0' ≤ c ∧ c ≤ '9' then some (c.toNat - 48)
  else if 'a' ≤ c ∧ c ≤ 'f' then some (c.toNat - 87)
  else if 'A' ≤ c ∧ c ≤ 'F' then some (c.toNat - 55)
  else none

def hexVal4 (a b c d : Char) : Option Nat :=
  match decodeHexDigit a, decodeHexDigit b, decodeHexDigit c, decodeHexDigit d with
  | some x1, some x2, some x3, some x4 =>
    some (((x1 * 16 + x2) * 16 + x3) * 16 + x4)
  | _, _, _, _ => none

/-- The `ensure_ascii` escape of one character, as in the json encoder. -/
def escapeChar (c : Char) : List Char :=
  if c = '\\' then ['\\', '\\']
  else if c = '"' then ['\\', '"']
  else if c = '\x08' then ['\\', 'b']
  else if c = '\x0c' then ['\\', 'f']
  else if c = '\n' then ['\\', 'n']
  else if c = '\x0d' then ['\\', 'r']
  else if c = '\t' then ['\\', 't']
  else if c.toNat < 0x20 ∨ 0x7e < c.toNat then
    if c.toNat < 0x10000 then '\\' :: 'u' :: hex4 c.toNat
    else
      '\\' :: 'u' :: hex4 (0xd800 + (c.toNat - 0x10000) / 0x400) ++
        '\\' :: 'u' :: hex4 (0xdc00 + (c.toNat - 0x10000) % 0x400)
  else [c]

def escapeStr : List Char → List Char
  | [] => []
  | c :: t => escapeChar c ++ escapeStr t

def consOpt (c : Char) (o : Option (List Char × List Char)) :
    Option (List Char × List Char) :=
  o.map fun p => (c :: p.1, p.2)

/-- One step of the json string scanner after the opening quote: the
closing quote ends the string, a backslash starts one of the accepted
escapes (with a low surrogate required after a high one, since a Lean
`Char` cannot hold the lone surrogate Python would produce), raw control
characters are rejected (strict mode), any other character stands for
itself. -/
inductive StepRes where
  | done (rest : List Char) : StepRes
  | ch (c : Char) (rest : List Char) : StepRes
  | fail : StepRes

def decodeStep : List Char → StepRes
  | [] => .fail
  | c :: r =>
    if c = '"' then .done r
    else if c = '\\' then
      match r with
      | [] => .fail
      | e :: r1 =>
        if e = 'u' then
          match r1 with
          | a :: b :: c2 :: d2 :: r2 =>
            match hexVal4 a b c2 d2 with
            | none => .fail
            | some n =>
              if 0xd800 ≤ n ∧ n ≤ 0xdbff then
                match r2 with
                | e2 :: u2 :: r2a =>
                  if e2 = '\\' ∧ u2 = 'u' then
                    match r2a with
                    | a3 :: b3 :: c3 :: d3 :: r3 =>
                      match hexVal4 a3 b3 c3 d3 with
                      | none => .fail
                      | some n2 =>
                        if 0xdc00 ≤ n2 ∧ n2 ≤ 0xdfff then
                          .ch (Char.ofNat
                            (0x10000 + (n - 0xd800) * 0x400 + (n2 - 0xdc00))) r3
                        else .fail
                    | _ => .fail
                  else .fail
                | _ => .fail
              else if 0xdc00 ≤ n ∧ n ≤ 0xdfff then .fail
              else .ch (Char.ofNat n) r2
          | _ => .fail
        else if e = '"' then .ch '"' r1
        else if e = '\\' then .ch '\\' r1
        else if e = '/' then .ch '/' r1
        else if e = 'b' then .ch '\x08' r1
        else if e = 'f' then .ch '\x0c' r1
        else if e = 'n' then .ch '\n' r1
        else if e = 'r' then .ch '\x0d' r1
        else if e = 't' then .ch '\t' r1
        else .fail
    else if c.toNat < 0x20 then .fail
    else .ch c r

/-- The scanning loop: fuel bounds the number of steps; every step consumes
at least one character, so the input length is always enough fuel. -/
def decodeLoop : Nat → List Char → Option (List Char × List Char)
  | 0, _ => none
  | Nat.succ fuel, s =>
    match decodeStep s with
    | .done rest => some ([], rest)
    | .ch c rest => consOpt c (decodeLoop fuel rest)
    | .fail => none

/-- The json string scanner after the opening quote: returns the decoded
content and the remainder after the closing quote. -/
def decodeStr (s : List Char) : Option (List Char × List Char) :=
  decodeLoop s.length s

/-- JSON whitespace skipped between tokens. -/
def isJsonWs (c : Char) : Bool :=
  c = ' ' || c = '\t' || c = '\n' || c = '\x0d'

def skipWs (s : List Char) : List Char :=
  s.dropWhile isJsonWs

def digitsToNat (ds : List Char) : Nat :=
  ds.foldl (fun a c => a * 10 + (c.toNat - 48)) 0

/-- Scans a nonnegative integer literal (sufficient for the cache values,
which are 1 or 2). -/
def parseNat (s : List Char) : Option (Nat × List Char) :=
  let ds := s.takeWhile Char.isDigit
  if ds.isEmpty then none else some (digitsToNat ds, s.dropWhile Char.isDigit)

/-- One serialized member: escaped quoted key, the `": "` key separator of
`indent=2` dumping, then the integer value. -/
def entryChunk (k : String) (v : Nat) : List Char :=
  '"' :: escapeStr k.toList ++ '"' :: ':' :: ' ' :: (Nat.repr v).toList

/-- The members of `json.dump(cache, f, indent=2)`: each entry on its own
line indented two spaces, entries separated by commas. -/
def dumpBody : List (String × Nat) → List Char
  | [] => []
  | [(k, v)] => '\n' :: ' ' :: ' ' :: entryChunk k v
  | (k, v) :: tl => ('\n' :: ' ' :: ' ' :: entryChunk k v ++ [',']) ++ dumpBody tl

/-- The full `json.dump(cache, f, indent=2)` output: an empty dict prints
as the two braces, a non-empty one puts the closing brace on its own
line. -/
def dumps (m : List (String × Nat)) : String :=
  ⟨'\x7b' :: (match m with | [] => [] | _ :: _ => dumpBody m ++ ['\n']) ++ ['\x7d']⟩

/-- Python dict insertion: an existing key keeps its position and takes the
new value, a new key is appended. -/
def dictNatInsert (d : List (String × Nat)) (k : String) (v : Nat) :
    List (String × Nat) :=
  if d.any (fun kv => kv.1 = k) then
    d.map (fun kv => if kv.1 = k then (k, v) else kv)
  else d ++ [(k, v)]

/-- Raw key/value pairs folded into a dict, as the json decoder builds the
Python object (later duplicate keys overwrite earlier values). -/
def pairsToDict (ps : List (String × Nat)) : List (String × Nat) :=
  ps.foldl (fun d kv => dictNatInsert d kv.1 kv.2) []

/-- The member loop of the json object scanner, fuelled by an upper bound
on the number of members. -/
def parseMembs : Nat → List Char → Option (List (String × Nat) × List Char)
  | 0, _ => none
  | Nat.succ fuel, s =>
    match s with
    | '"' :: rest =>
      match decodeStr rest with
      | none => none
      | some (k, r1) =>
        match skipWs r1 with
        | ':' :: r3 =>
          match parseNat (skipWs r3) with
          | none => none
          | some (v, r4) =>
            match skipWs r4 with
            | ',' :: r6 =>
              match parseMembs fuel (skipWs r6) with
              | some (ms, r7) => some ((⟨k⟩, v) :: ms, r7)
              | none => none
            | '\x7d' :: r6 => some ([(⟨k⟩, v)], r6)
            | _ => none
        | _ => none
    | _ => none

/-- `json.load` on a flat object of integer values: whitespace, the object,
then nothing but whitespace to the end of the file. -/
def parseTop (s : List Char) : Option (List (String × Nat)) :=
  match skipWs s with
  | '\x7b' :: rest =>
    let r := skipWs rest
    if r.headD '\x00' = '\x7d' then
      if (skipWs (r.drop 1)).isEmpty then some [] else none
    else
      match parseMembs s.length r with
      | some (ps, r2) => if (skipWs r2).isEmpty then some (pairsToDict ps) else none
      | none => none
  | _ => none

/-- Embeds `save_workday_cache`: writes the `indent=2` JSON dump of the
mapping as the file content. -/
def save_workday_cache (m : List (String × Nat)) : Option String :=
  some (dumps m)

/-- Embeds `load_workday_cache`: an absent file or any parse failure
yields the empty mapping. -/
def load_workday_cache (file : Option String) : List (String × Nat) :=
  match file with
  | none => []
  | some s => (parseTop s.toList).getD []

theorem decodeHexDigit_hexDigit : ∀ n, n < 16 → decodeHexDigit (hexDigit n) = some n := by
  decide

theorem hexVal4_hex4 {n : Nat} (h : n < 0x10000) :
    hexVal4 (hexDigit (n / 4096 % 16)) (hexDigit (n / 256 % 16))
      (hexDigit (n / 16 % 16)) (hexDigit (n % 16)) = some n := by
  unfold hexVal4
  rw [decodeHexDigit_hexDigit _ (Nat.mod_lt _ (by norm_num)),
    decodeHexDigit_hexDigit _ (Nat.mod_lt _ (by norm_num)),
    decodeHexDigit_hexDigit _ (Nat.mod_lt _ (by norm_num)),
    decodeHexDigit_hexDigit _ (Nat.mod_lt _ (by norm_num))]
  simp only [Option.some.injEq]
  omega


theorem decodeStep_u (a b c2 d2 : Char) (r2 : List Char) {n : Nat}
    (hv : hexVal4 a b c2 d2 = some n)
    (hs : ¬(0xd800 ≤ n ∧ n ≤ 0xdbff)) (hs2 : ¬(0xdc00 ≤ n ∧ n ≤ 0xdfff)) :
    decodeStep ('\\' :: 'u' :: a :: b :: c2 :: d2 :: r2) = .ch (Char.ofNat n) r2 := by
  simp only [decodeStep, if_true]
  rw [hv]
  simp only []
  rw [if_neg hs, if_neg hs2]
  simp

theorem decodeStep_u2 (a b c2 d2 a3 b3 c3 d3 : Char) (r3 : List Char) {n n2 : Nat}
    (hv : hexVal4 a b c2 d2 = some n) (hs : 0xd800 ≤ n ∧ n ≤ 0xdbff)
    (hv2 : hexVal4 a3 b3 c3 d3 = some n2) (hs2 : 0xdc00 ≤ n2 ∧ n2 ≤ 0xdfff) :
    decodeStep
        ('\\' :: 'u' :: a :: b :: c2 :: d2 :: '\\' :: 'u' :: a3 :: b3 :: c3 :: d3 :: r3) =
      .ch (Char.ofNat (0x10000 + (n - 0xd800) * 0x400 + (n2 - 0xdc00))) r3 := by
  simp only [decodeStep, if_true]
  rw [hv]
  simp only []
  rw [if_pos hs]
  simp only [and_self, if_true]
  rw [hv2]
  simp only []
  rw [if_pos hs2]
  simp

theorem decodeStep_escapeChar (c : Char) (rest : List Char) :
    decodeStep (escapeChar c ++ rest) = .ch c rest := by
  by_cases h1 : c = '\\'
  · subst h1; rfl
  · by_cases h2 : c = '"'
    · subst h2; rfl
    · by_cases h3 : c = '\x08'
      · subst h3; rfl
      · by_cases h4 : c = '\x0c'
        · subst h4; rfl
        · by_cases h5 : c = '\n'
          · subst h5; rfl
          · by_cases h6 : c = '\x0d'
            · subst h6; rfl
            · by_cases h7 : c = '\t'
              · subst h7; rfl
              · have hval : c.toNat < 55296 ∨ (57343 < c.toNat ∧ c.toNat < 1114112) :=
                  c.valid
                by_cases h8 : c.toNat < 0x20 ∨ 0x7e < c.toNat
                · by_cases h9 : c.toNat < 0x10000
                  · simp only [escapeChar, if_neg h1, if_neg h2, if_neg h3, if_neg h4,
                      if_neg h5, if_neg h6, if_neg h7, if_pos h8, if_pos h9, hex4,
                      List.cons_append, List.nil_append]
                    rw [decodeStep_u _ _ _ _ rest (hexVal4_hex4 h9) (by omega)
                      (by omega), Char.ofNat_toNat]
                  · simp only [escapeChar, if_neg h1, if_neg h2, if_neg h3, if_neg h4,
                      if_neg h5, if_neg h6, if_neg h7, if_pos h8, if_neg h9, hex4,
                      List.cons_append, List.nil_append, List.append_assoc]
                    rw [decodeStep_u2 _ _ _ _ _ _ _ _ rest
                      (hexVal4_hex4 (show 55296 + (c.toNat - 65536) / 1024 < 65536 from
                        by omega))
                      (by omega)
                      (hexVal4_hex4 (show 56320 + (c.toNat - 65536) % 1024 < 65536 from
                        by omega))
                      (by omega)]
                    rw [show 0x10000 +
                        (55296 + (c.toNat - 65536) / 1024 - 0xd800) * 0x400 +
                        (56320 + (c.toNat - 65536) % 1024 - 0xdc00) = c.toNat
                      from by omega, Char.ofNat_toNat]
                · simp only [escapeChar, if_neg h1, if_neg h2, if_neg h3, if_neg h4,
                    if_neg h5, if_neg h6, if_neg h7, if_neg h8, List.cons_append,
                    List.nil_append]
                  simp only [decodeStep]
                  rw [if_neg h2, if_neg h1, if_neg (by omega)]

theorem escapeStr_length : ∀ k : List Char, k.length ≤ (escapeStr k).length := by
  intro k
  induction k with
  | nil => simp [escapeStr]
  | cons c t ih =>
    have hpos : 1 ≤ (escapeChar c).length := by
      unfold escapeChar
      split_ifs <;> simp [hex4]
    simp only [escapeStr, List.length_cons, List.length_append]
    omega

theorem decodeLoop_escapeStr :
    ∀ (k r : List Char) (fuel : Nat), k.length < fuel →
    decodeLoop fuel (escapeStr k ++ '"' :: r) = some (k, r) := by
  intro k
  induction k with
  | nil =>
    intro r fuel hf
    cases fuel with
    | zero => omega
    | succ f => rfl
  | cons c k ih =>
    intro r fuel hf
    cases fuel with
    | zero => omega
    | succ f =>
      simp only [escapeStr, List.append_assoc]
      simp only [decodeLoop, decodeStep_escapeChar]
      rw [ih r f (by simp at hf; omega)]
      rfl

theorem decodeStr_escapeStr (k r : List Char) :
    decodeStr (escapeStr k ++ '"' :: r) = some (k, r) := by
  unfold decodeStr
  refine decodeLoop_escapeStr k r _ ?_
  have := escapeStr_length k
  simp only [List.length_append, List.length_cons]
  omega

/-- Proof-side shape of the serialized member list after the first entry:
either the terminating newline and closing brace, or the comma separator,
the newline-and-indent, and the next entry. -/
def membChunks : List (String × Nat) → List Char → List Char
  | [], R => '\n' :: '\x7d' :: R
  | (k, v) :: tl, R => ',' :: '\n' :: ' ' :: ' ' :: (entryChunk k v ++ membChunks tl R)

theorem skipWs_cons (c : Char) (r : List Char) (h : isJsonWs c = false) :
    skipWs (c :: r) = c :: r := by
  simp [skipWs, List.dropWhile_cons, h]

theorem skipWs_ws (c : Char) (r : List Char) (h : isJsonWs c = true) :
    skipWs (c :: r) = skipWs r := by
  simp [skipWs, List.dropWhile_cons, h]

theorem parseNat_digit_cons (d e : Char) (Y : List Char)
    (hd : d.isDigit = true) (he : e.isDigit = false) :
    parseNat (d :: e :: Y) = some (digitsToNat [d], e :: Y) := by
  unfold parseNat
  simp [List.takeWhile_cons, List.dropWhile_cons, hd, he, digitsToNat]

theorem parseMembs_chunks :
    ∀ (tl : List (String × Nat)) (k : String) (v : Nat) (R : List Char) (fuel : Nat),
    tl.length < fuel → (v = 1 ∨ v = 2) → (∀ kv ∈ tl, kv.2 = 1 ∨ kv.2 = 2) →
    parseMembs fuel (entryChunk k v ++ membChunks tl R) = some ((k, v) :: tl, R) := by
  intro tl
  induction tl with
  | nil =>
    intro k v R fuel hf hv _
    cases fuel with
    | zero => omega
    | succ f =>
      rcases hv with rfl | rfl
      · simp only [entryChunk, membChunks, List.cons_append, List.append_assoc]
        simp only [parseMembs]
        rw [decodeStr_escapeStr]
        simp only []
        rw [show ((Nat.repr 1).toList : List Char) = ['1'] from by decide]
        simp only [List.cons_append, List.nil_append]
        rw [skipWs_cons ':' _ (by decide)]
        simp only []
        rw [skipWs_ws ' ' _ (by decide), skipWs_cons '1' _ (by decide)]
        rw [parseNat_digit_cons '1' '\n' _ (by decide) (by decide)]
        simp only []
        rw [show digitsToNat ['1'] = 1 from by decide]
        rw [skipWs_ws '\n' _ (by decide), skipWs_cons '\x7d' _ (by decide)]
        rfl
      · simp only [entryChunk, membChunks, List.cons_append, List.append_assoc]
        simp only [parseMembs]
        rw [decodeStr_escapeStr]
        simp only []
        rw [show ((Nat.repr 2).toList : List Char) = ['2'] from by decide]
        simp only [List.cons_append, List.nil_append]
        rw [skipWs_cons ':' _ (by decide)]
        simp only []
        rw [skipWs_ws ' ' _ (by decide), skipWs_cons '2' _ (by decide)]
        rw [parseNat_digit_cons '2' '\n' _ (by decide) (by decide)]
        simp only []
        rw [show digitsToNat ['2'] = 2 from by decide]
        rw [skipWs_ws '\n' _ (by decide), skipWs_cons '\x7d' _ (by decide)]
        rfl
  | cons hd tl ih =>
    obtain ⟨k2, v2⟩ := hd
    intro k v R fuel hf hv htl
    have hv2 : v2 = 1 ∨ v2 = 2 := htl (k2, v2) (by simp)
    have htl2 : ∀ kv ∈ tl, kv.2 = 1 ∨ kv.2 = 2 := fun kv hkv => htl kv (by simp [hkv])
    cases fuel with
    | zero => omega
    | succ f =>
      have hfold : entryChunk k2 v2 ++ membChunks tl R =
          '"' :: (escapeStr k2.toList ++
            ('"' :: ':' :: ' ' :: ((Nat.repr v2).toList ++ membChunks tl R))) := by
        simp [entryChunk, List.cons_append, List.append_assoc]
      have hsk : skipWs (entryChunk k2 v2 ++ membChunks tl R) =
          entryChunk k2 v2 ++ membChunks tl R := by
        rw [hfold, skipWs_cons '"' _ (by decide), ← hfold]
      have hih := ih k2 v2 R f (by simp at hf; omega) hv2 htl2
      rcases hv with rfl | rfl
      · have hsplit : entryChunk k 1 ++ membChunks ((k2, v2) :: tl) R =
            '"' :: (escapeStr k.toList ++ ('"' :: ':' :: ' ' ::
              ('1' :: ',' :: '\n' :: ' ' :: ' ' ::
                (entryChunk k2 v2 ++ membChunks tl R)))) := by
          simp [entryChunk, membChunks, List.cons_append, List.append_assoc,
            show ((Nat.repr 1).data : List Char) = ['1'] from by decide]
        rw [hsplit]
        simp only [parseMembs]
        rw [decodeStr_escapeStr]
        simp only []
        rw [skipWs_cons ':' _ (by decide)]
        simp only []
        rw [skipWs_ws ' ' _ (by decide), skipWs_cons '1' _ (by decide)]
        rw [parseNat_digit_cons '1' ',' _ (by decide) (by decide)]
        simp only []
        rw [show digitsToNat ['1'] = 1 from by decide]
        rw [skipWs_cons ',' _ (by decide)]
        simp only []
        rw [skipWs_ws '\n' _ (by decide), skipWs_ws ' ' _ (by decide),
          skipWs_ws ' ' _ (by decide), hsk, hih]
        rfl
      · have hsplit : entryChunk k 2 ++ membChunks ((k2, v2) :: tl) R =
            '"' :: (escapeStr k.toList ++ ('"' :: ':' :: ' ' ::
              ('2' :: ',' :: '\n' :: ' ' :: ' ' ::
                (entryChunk k2 v2 ++ membChunks tl R)))) := by
          simp [entryChunk, membChunks, List.cons_append, List.append_assoc,
            show ((Nat.repr 2).data : List Char) = ['2'] from by decide]
        rw [hsplit]
        simp only [parseMembs]
        rw [decodeStr_escapeStr]
        simp only []
        rw [skipWs_cons ':' _ (by decide)]
        simp only []
        rw [skipWs_ws ' ' _ (by decide), skipWs_cons '2' _ (by decide)]
        rw [parseNat_digit_cons '2' ',' _ (by decide) (by decide)]
        simp only []
        rw [show digitsToNat ['2'] = 2 from by decide]
        rw [skipWs_cons ',' _ (by decide)]
        simp only []
        rw [skipWs_ws '\n' _ (by decide), skipWs_ws ' ' _ (by decide),
          skipWs_ws ' ' _ (by decide), hsk, hih]
        rfl

theorem dumpBody_chunks : ∀ (tl : List (String × Nat)) (k : String) (v : Nat)
    (R : List Char),
    dumpBody ((k, v) :: tl) ++ '\n' :: '\x7d' :: R =
      '\n' :: ' ' :: ' ' :: (entryChunk k v ++ membChunks tl R) := by
  intro tl
  induction tl with
  | nil => intro k v R; simp [dumpBody, membChunks, List.append_assoc]
  | cons hd tl2 ih =>
    obtain ⟨k2, v2⟩ := hd
    intro k v R
    simp only [dumpBody, membChunks, List.cons_append, List.append_assoc,
      List.nil_append]
    rw [ih k2 v2 R]

theorem dumpBody_length : ∀ m : List (String × Nat), m.length ≤ (dumpBody m).length := by
  intro m
  induction m with
  | nil => simp [dumpBody]
  | cons hd tl ih =>
    obtain ⟨k, v⟩ := hd
    cases tl with
    | nil => simp [dumpBody]
    | cons hd2 tl2 =>
      simp only [dumpBody, List.length_cons, List.length_append] at ih ⊢
      omega

theorem dictNatInsert_notmem {d : List (String × Nat)} {k : String} {v : Nat}
    (h : ∀ kv ∈ d, kv.1 ≠ k) : dictNatInsert d k v = d ++ [(k, v)] := by
  unfold dictNatInsert
  rw [if_neg]
  simp only [List.any_eq_true, not_exists, not_and]
  intro kv hkv
  simp [h kv hkv]

theorem pairsToDictAux : ∀ (ps acc : List (String × Nat)),
    (∀ kv ∈ acc, ∀ kv2 ∈ ps, kv.1 ≠ kv2.1) → (ps.map Prod.fst).Nodup →
    List.foldl (fun d kv => dictNatInsert d kv.1 kv.2) acc ps = acc ++ ps := by
  intro ps
  induction ps with
  | nil => intro acc _ _; simp
  | cons hd tl ih =>
    obtain ⟨k, v⟩ := hd
    intro acc hacc hnd
    simp only [List.foldl_cons]
    rw [dictNatInsert_notmem (fun kv hkv => hacc kv hkv (k, v) (by simp))]
    rw [ih (acc ++ [(k, v)]) ?_ ?_]
    · simp
    · intro kv hkv kv2 hkv2
      rcases List.mem_append.1 hkv with hin | hself
      · exact hacc kv hin kv2 (by simp [hkv2])
      · simp only [List.mem_singleton] at hself
        subst hself
        simp only [List.map_cons, List.nodup_cons] at hnd
        intro hcontra
        refine hnd.1 ?_
        have := List.mem_map_of_mem Prod.fst hkv2
        simpa [← hcontra] using this
    · simp only [List.map_cons, List.nodup_cons] at hnd
      exact hnd.2

theorem pairsToDict_nodup {ps : List (String × Nat)}
    (h : (ps.map Prod.fst).Nodup) : pairsToDict ps = ps := by
  have := pairsToDictAux ps [] (by simp) h
  simpa [pairsToDict] using this

theorem membChunks_length : ∀ (tl : List (String × Nat)) (R : List Char),
    tl.length ≤ (membChunks tl R).length := by
  intro tl
  induction tl with
  | nil => intro R; simp [membChunks]
  | cons hd tl2 ih =>
    obtain ⟨k, v⟩ := hd
    intro R
    have := ih R
    simp only [membChunks, List.length_cons, List.length_append] at this ⊢
    omega

theorem parseTop_dumps (m : List (String × Nat)) (hne : m ≠ [])
    (hnd : (m.map Prod.fst).Nodup) (hv : ∀ kv ∈ m, kv.2 = 1 ∨ kv.2 = 2) :
    parseTop (dumps m).toList = some m := by
  cases m with
  | nil => exact absurd rfl hne
  | cons hd tl =>
    obtain ⟨k, v⟩ := hd
    have hv1 : v = 1 ∨ v = 2 := hv (k, v) (by simp)
    have htl : ∀ kv ∈ tl, kv.2 = 1 ∨ kv.2 = 2 := fun kv hkv => hv kv (by simp [hkv])
    have hfold : entryChunk k v ++ membChunks tl [] =
        '"' :: (escapeStr k.toList ++
          ('"' :: ':' :: ' ' :: ((Nat.repr v).toList ++ membChunks tl []))) := by
      simp [entryChunk, List.cons_append, List.append_assoc]
    have hskipB : skipWs ('\n' :: ' ' :: ' ' :: (entryChunk k v ++ membChunks tl [])) =
        '"' :: (escapeStr k.toList ++
          ('"' :: ':' :: ' ' :: ((Nat.repr v).toList ++ membChunks tl []))) := by
      rw [skipWs_ws '\n' _ (by decide), skipWs_ws ' ' _ (by decide),
        skipWs_ws ' ' _ (by decide), hfold, skipWs_cons '"' _ (by decide)]
    show parseTop ('\x7b' :: ((dumpBody ((k, v) :: tl) ++ ['\n']) ++ ['\x7d'])) = _
    rw [show ((dumpBody ((k, v) :: tl) ++ ['\n']) ++ ['\x7d'] : List Char) =
      dumpBody ((k, v) :: tl) ++ '\n' :: '\x7d' :: [] from by simp]
    rw [dumpBody_chunks tl k v []]
    simp only [parseTop, skipWs_cons '\x7b' _ (by decide), hskipB]
    rw [if_neg (by simp only [List.headD_cons]; decide)]
    rw [← hfold, parseMembs_chunks tl k v [] _ ?hfuel hv1 htl]
    · simp [pairsToDict_nodup hnd, skipWs]
    case hfuel =>
      have hlen := membChunks_length tl []
      simp only [List.length_cons, List.length_append] at hlen ⊢
      omega

/-- C8: saving any non-empty mapping from tenant strings to the integers
1 or 2 with `save_workday_cache` and loading the resulting file with
`load_workday_cache` reproduces exactly the same mapping. -/
theorem cache_round_trip (m : List (String × Nat)) (hne : m ≠ [])
    (hnd : (m.map Prod.fst).Nodup) (hv : ∀ kv ∈ m, kv.2 = 1 ∨ kv.2 = 2) :
    load_workday_cache (save_workday_cache m) = m := by
  unfold load_workday_cache save_workday_cache
  simp only []
  rw [parseTop_dumps m hne hnd hv]
  rfl

/-- Witness for C8 at a concrete two-tenant mapping. -/
theorem cache_round_trip_witness :
    load_workday_cache (save_workday_cache [("acme", 2), ("zeta", 1)]) =
      [("acme", 2), ("zeta", 1)] :=
  cache_round_trip [("acme", 2), ("zeta", 1)] (by decide) (by decide) (by decide)
